import Mathlib

/-!
Shallow embedding of the `cassie` symbolic-term evaluation engine
(src/variable.rs and src/term.rs).

Numeric values are modelled as rationals (`ℚ`); the six floating-point
trigonometric library functions are modelled as an abstract bundle of
functions (`TrigOps`) over which every statement is quantified.  A Rust
panic (out-of-bounds indexing such as `terms[0]` on an empty vector) is
modelled as the distinguished outcome `EvalResult.fatal`, kept apart from
the recoverable `Err` channel (`EvalResult.err`).
-/

namespace Cassie

/-- Embeds `struct Variable { pub symbol: char }` from src/variable.rs. -/
structure Variable where
  symbol : Char
deriving DecidableEq, Repr

/-- Embeds `from_str` of `impl FromStr for Variable` (src/variable.rs):
match on the character count of the input. -/
def fromStr (s : String) : Except String Variable :=
  match s.toList with
  | [] => .error "Variables must be one character long (none given)."
  | [c] => .ok ⟨c⟩
  | cs => .error ("Variables cannot be longer than one character (" ++ toString cs.length ++ " found).")

/-- Embeds `enum Term` from src/term.rs. -/
inductive Term where
  | Variable (v : Cassie.Variable)
  | Constant (value : ℚ)
  | Sum (terms : List Term)
  | Difference (terms : List Term)
  | Product (terms : List Term)
  | Quotient (terms : List Term)
  | Sine (term : Term)
  | Cosine (term : Term)
  | Tangent (term : Term)
  | ArcSine (term : Term)
  | ArcCosine (term : Term)
  | ArcTangent (term : Term)

/-- The binding table (`HashMap<char, f64>` in the source), modelled as a
partial map from symbols to values. -/
def VariableValues := Char → Option ℚ

/-- The outcome of `Term::eval`: `Ok` (`ok`), `Err` (`err`), or a Rust
panic (`fatal`, from out-of-bounds indexing). -/
inductive EvalResult where
  | ok (value : ℚ)
  | err (msg : String)
  | fatal
deriving DecidableEq, Repr

/-- The abstract trigonometric library (`f64::sin` and friends). -/
structure TrigOps where
  sin : ℚ → ℚ
  cos : ℚ → ℚ
  tan : ℚ → ℚ
  asin : ℚ → ℚ
  acos : ℚ → ℚ
  atan : ℚ → ℚ

/-- A concrete instantiation of the trigonometric bundle, used for
evaluating closed examples (no claim depends on trigonometric values). -/
def trivialOps : TrigOps := ⟨fun _ => 0, fun _ => 0, fun _ => 0, fun _ => 0, fun _ => 0, fun _ => 0⟩

/-- The near-zero divisor threshold literal `0.00000000000000001` from the
`Quotient` arm of `Term::eval` (src/term.rs line 203). -/
def nearZeroThreshold : ℚ := 0.00000000000000001

/-- The trig-wrapper arms of `Term::eval`: apply `f` on `Ok`, propagate
`Err` (and a panic) unchanged. -/
def applyTrig (f : ℚ → ℚ) : EvalResult → EvalResult
  | .ok v => .ok (f v)
  | .err e => .err e
  | .fatal => .fatal

mutual

/-- Embeds the private `Term::eval` (src/term.rs lines 154-255).
`values = none` is the `reduce` mode, `values = some tbl` the `evaluate`
mode.  `Difference`/`Quotient` index `terms[0]`, which panics (`fatal`)
on an empty vector; the `Quotient` loop runs over the *whole* list,
dividing by the first element's value again. -/
def eval (ops : TrigOps) (values : Option VariableValues) : Term → EvalResult
  | .Constant value => .ok value
  | .Sum terms => evalSumLoop ops values terms 0
  | .Difference terms =>
    match terms with
    | [] => .fatal
    | t :: rest =>
      match eval ops values t with
      | .ok first => evalDiffLoop ops values rest first
      | .err e => .err e
      | .fatal => .fatal
  | .Product terms => evalProdLoop ops values terms 1
  | .Quotient terms =>
    match terms with
    | [] => .fatal
    | t :: rest =>
      match eval ops values t with
      | .ok first => evalQuotLoop ops values (t :: rest) first
      | .err e => .err e
      | .fatal => .fatal
  | .Variable v =>
    match values with
    | some tbl =>
      match tbl v.symbol with
      | some value => .ok value
      | none => .err ("No value provided for variable ".push v.symbol)
    | none => .err (("No variable values provided (looking for ".push v.symbol) ++ ")")
  | .Sine t => applyTrig ops.sin (eval ops values t)
  | .Cosine t => applyTrig ops.cos (eval ops values t)
  | .Tangent t => applyTrig ops.tan (eval ops values t)
  | .ArcSine t => applyTrig ops.asin (eval ops values t)
  | .ArcCosine t => applyTrig ops.acos (eval ops values t)
  | .ArcTangent t => applyTrig ops.atan (eval ops values t)

/-- The `Sum` accumulation loop of `Term::eval` (running total). -/
def evalSumLoop (ops : TrigOps) (values : Option VariableValues) : List Term → ℚ → EvalResult
  | [], sum => .ok sum
  | t :: rest, sum =>
    match eval ops values t with
    | .ok value => evalSumLoop ops values rest (sum + value)
    | .err e => .err e
    | .fatal => .fatal

/-- The `Difference` subtraction loop of `Term::eval` (over `terms[1..]`). -/
def evalDiffLoop (ops : TrigOps) (values : Option VariableValues) : List Term → ℚ → EvalResult
  | [], difference => .ok difference
  | t :: rest, difference =>
    match eval ops values t with
    | .ok value => evalDiffLoop ops values rest (difference - value)
    | .err e => .err e
    | .fatal => .fatal

/-- The `Product` accumulation loop of `Term::eval` (running product). -/
def evalProdLoop (ops : TrigOps) (values : Option VariableValues) : List Term → ℚ → EvalResult
  | [], product => .ok product
  | t :: rest, product =>
    match eval ops values t with
    | .ok value => evalProdLoop ops values rest (product * value)
    | .err e => .err e
    | .fatal => .fatal

/-- The `Quotient` division loop of `Term::eval`: each successfully
evaluated divisor is guarded against near-zero magnitude before the
division is performed. -/
def evalQuotLoop (ops : TrigOps) (values : Option VariableValues) : List Term → ℚ → EvalResult
  | [], quotient => .ok quotient
  | t :: rest, quotient =>
    match eval ops values t with
    | .ok dividend =>
      if |dividend| < nearZeroThreshold then .err "Attempted division by zero."
      else evalQuotLoop ops values rest (quotient / dividend)
    | .err e => .err e
    | .fatal => .fatal

end

/-- Embeds `Term::evaluate` (src/term.rs): `self.eval(Some(values))`. -/
def evaluate (ops : TrigOps) (t : Term) (values : VariableValues) : EvalResult :=
  eval ops (some values) t

/-- Embeds `Term::reduce` (src/term.rs): `self.eval(None)`. -/
def reduce (ops : TrigOps) (t : Term) : EvalResult :=
  eval ops none t

/-- Embeds `fn add` of `impl Add<&Term> for &Term` (src/term.rs lines
262-290), the operand-reference form of the `+` combinator.  Note the
third arm: `terms.clone()` of the right-hand Sum followed by
`terms.push(self.clone())`, i.e. the left operand is appended *after*
the right operand's children. -/
def addRef (self another : Term) : Term :=
  match self with
  | .Sum terms =>
    match another with
    | .Sum more => .Sum (terms ++ more)
    | _ => .Sum (terms ++ [another])
  | _ =>
    match another with
    | .Sum terms => .Sum (terms ++ [self])
    | _ => .Sum [self, another]

/-- Embeds `fn add` of `impl Add for Term` (src/term.rs lines 297-299),
the operand-value form: `&self + &another`. -/
def addVal (self another : Term) : Term :=
  addRef self another

/-- Whether a term is a `Sum` node (the discriminant tested by the `+`
combinator's match arms). -/
def Term.isSum : Term → Bool
  | .Sum _ => true
  | _ => false

/-! ### Unfolding lemmas for the recursive evaluator

`eval` and its loops are compiled by well-founded recursion, so their
defining equations are exposed as lemmas rather than by `rfl`. -/

section EvalUnfold

variable (ops : TrigOps) (values : Option VariableValues)

lemma eval_constant (v : ℚ) : eval ops values (.Constant v) = .ok v := by
  rw [eval]

lemma eval_sum (ts : List Term) :
    eval ops values (.Sum ts) = evalSumLoop ops values ts 0 := by
  rw [eval]

lemma eval_product (ts : List Term) :
    eval ops values (.Product ts) = evalProdLoop ops values ts 1 := by
  rw [eval]

lemma eval_difference_nil : eval ops values (.Difference []) = .fatal := by
  rw [eval]

lemma eval_difference_cons_ok {t : Term} {v : ℚ} (rest : List Term)
    (h : eval ops values t = .ok v) :
    eval ops values (.Difference (t :: rest)) = evalDiffLoop ops values rest v := by
  rw [eval, h]

lemma eval_difference_cons_err {t : Term} {e : String} (rest : List Term)
    (h : eval ops values t = .err e) :
    eval ops values (.Difference (t :: rest)) = .err e := by
  rw [eval, h]

lemma eval_quotient_nil : eval ops values (.Quotient []) = .fatal := by
  rw [eval]

lemma eval_quotient_cons_ok {t : Term} {v : ℚ} (rest : List Term)
    (h : eval ops values t = .ok v) :
    eval ops values (.Quotient (t :: rest)) = evalQuotLoop ops values (t :: rest) v := by
  rw [eval, h]

lemma eval_quotient_cons_err {t : Term} {e : String} (rest : List Term)
    (h : eval ops values t = .err e) :
    eval ops values (.Quotient (t :: rest)) = .err e := by
  rw [eval, h]

lemma eval_variable (v : Cassie.Variable) :
    eval ops values (.Variable v) =
      match values with
      | some tbl =>
        match tbl v.symbol with
        | some value => .ok value
        | none => .err ("No value provided for variable ".push v.symbol)
      | none => .err (("No variable values provided (looking for ".push v.symbol) ++ ")") := by
  rw [eval.eq_def]

lemma eval_sine (t : Term) :
    eval ops values (.Sine t) = applyTrig ops.sin (eval ops values t) := by
  rw [eval]

lemma eval_cosine (t : Term) :
    eval ops values (.Cosine t) = applyTrig ops.cos (eval ops values t) := by
  rw [eval]

lemma eval_tangent (t : Term) :
    eval ops values (.Tangent t) = applyTrig ops.tan (eval ops values t) := by
  rw [eval]

lemma eval_arcsine (t : Term) :
    eval ops values (.ArcSine t) = applyTrig ops.asin (eval ops values t) := by
  rw [eval]

lemma eval_arccosine (t : Term) :
    eval ops values (.ArcCosine t) = applyTrig ops.acos (eval ops values t) := by
  rw [eval]

lemma eval_arctangent (t : Term) :
    eval ops values (.ArcTangent t) = applyTrig ops.atan (eval ops values t) := by
  rw [eval]

lemma evalSumLoop_nil (acc : ℚ) : evalSumLoop ops values [] acc = .ok acc := by
  rw [evalSumLoop]

lemma evalSumLoop_cons_ok {t : Term} {v : ℚ} (rest : List Term) (acc : ℚ)
    (h : eval ops values t = .ok v) :
    evalSumLoop ops values (t :: rest) acc = evalSumLoop ops values rest (acc + v) := by
  rw [evalSumLoop, h]

lemma evalSumLoop_cons_err {t : Term} {e : String} (rest : List Term) (acc : ℚ)
    (h : eval ops values t = .err e) :
    evalSumLoop ops values (t :: rest) acc = .err e := by
  rw [evalSumLoop, h]

lemma evalDiffLoop_nil (acc : ℚ) : evalDiffLoop ops values [] acc = .ok acc := by
  rw [evalDiffLoop]

lemma evalDiffLoop_cons_ok {t : Term} {v : ℚ} (rest : List Term) (acc : ℚ)
    (h : eval ops values t = .ok v) :
    evalDiffLoop ops values (t :: rest) acc = evalDiffLoop ops values rest (acc - v) := by
  rw [evalDiffLoop, h]

lemma evalDiffLoop_cons_err {t : Term} {e : String} (rest : List Term) (acc : ℚ)
    (h : eval ops values t = .err e) :
    evalDiffLoop ops values (t :: rest) acc = .err e := by
  rw [evalDiffLoop, h]

lemma evalProdLoop_nil (acc : ℚ) : evalProdLoop ops values [] acc = .ok acc := by
  rw [evalProdLoop]

lemma evalProdLoop_cons_ok {t : Term} {v : ℚ} (rest : List Term) (acc : ℚ)
    (h : eval ops values t = .ok v) :
    evalProdLoop ops values (t :: rest) acc = evalProdLoop ops values rest (acc * v) := by
  rw [evalProdLoop, h]

lemma evalProdLoop_cons_err {t : Term} {e : String} (rest : List Term) (acc : ℚ)
    (h : eval ops values t = .err e) :
    evalProdLoop ops values (t :: rest) acc = .err e := by
  rw [evalProdLoop, h]

lemma evalQuotLoop_nil (acc : ℚ) : evalQuotLoop ops values [] acc = .ok acc := by
  rw [evalQuotLoop]

lemma evalQuotLoop_cons_ok_lt {t : Term} {v : ℚ} (rest : List Term) (acc : ℚ)
    (h : eval ops values t = .ok v) (hv : |v| < nearZeroThreshold) :
    evalQuotLoop ops values (t :: rest) acc = .err "Attempted division by zero." := by
  rw [evalQuotLoop, h]
  show (if |v| < nearZeroThreshold then EvalResult.err "Attempted division by zero."
      else evalQuotLoop ops values rest (acc / v)) = _
  exact if_pos hv

lemma evalQuotLoop_cons_ok_ge {t : Term} {v : ℚ} (rest : List Term) (acc : ℚ)
    (h : eval ops values t = .ok v) (hv : nearZeroThreshold ≤ |v|) :
    evalQuotLoop ops values (t :: rest) acc = evalQuotLoop ops values rest (acc / v) := by
  rw [evalQuotLoop, h]
  show (if |v| < nearZeroThreshold then EvalResult.err "Attempted division by zero."
      else evalQuotLoop ops values rest (acc / v)) = _
  exact if_neg (not_lt.mpr hv)

lemma evalQuotLoop_cons_err {t : Term} {e : String} (rest : List Term) (acc : ℚ)
    (h : eval ops values t = .err e) :
    evalQuotLoop ops values (t :: rest) acc = .err e := by
  rw [evalQuotLoop, h]

end EvalUnfold

/-! ### Claims about the sum-flattening combinator -/

/-- **C1, counterexample.** The claim says combining a non-Sum `L` with a
Sum `R` (child list `rs`) yields a Sum whose child list is `[L] ++ rs`.
The code instead pushes the clone of `L` onto the *end* of the clone of
`rs`: at `L = Constant 1`, `R = Sum [Constant 2, Constant 3]` both
combinator forms return `Sum [Constant 2, Constant 3, Constant 1]`,
which differs from `Sum ([Constant 1] ++ [Constant 2, Constant 3])`. -/
theorem claimC1_counterexample :
    (Term.Constant 1).isSum = false ∧
    addRef (.Constant 1) (.Sum [.Constant 2, .Constant 3]) =
      .Sum [.Constant 2, .Constant 3, .Constant 1] ∧
    addRef (.Constant 1) (.Sum [.Constant 2, .Constant 3]) ≠
      .Sum ([.Constant 1] ++ [.Constant 2, .Constant 3]) ∧
    addVal (.Constant 1) (.Sum [.Constant 2, .Constant 3]) ≠
      .Sum ([.Constant 1] ++ [.Constant 2, .Constant 3]) := by
  refine ⟨rfl, rfl, ?_, ?_⟩ <;> norm_num [addRef, addVal]

/-- **C1, amended.** For every term `L` that is not a Sum and every Sum
`R` with child list `rs`, both forms of the `+` combinator return a Sum
whose child list is `rs ++ [L]`: the single new entry equal to `L` is
appended *after* `R`'s children, so `L`'s position comes after `R`'s
children in the resulting child list. -/
theorem claimC1 (L : Term) (rs : List Term) (h : L.isSum = false) :
    addRef L (.Sum rs) = .Sum (rs ++ [L]) ∧ addVal L (.Sum rs) = .Sum (rs ++ [L]) := by
  cases L <;> first
    | exact ⟨rfl, rfl⟩
    | simp [Term.isSum] at h

/-- **C1 witness.** The amended claim at `L = Constant 1`,
`rs = [Constant 2]`. -/
theorem claimC1_witness :
    (Term.Constant 1).isSum = false ∧
    addRef (.Constant 1) (.Sum [.Constant 2]) = .Sum ([.Constant 2] ++ [.Constant 1]) ∧
    addVal (.Constant 1) (.Sum [.Constant 2]) = .Sum ([.Constant 2] ++ [.Constant 1]) :=
  ⟨rfl, (claimC1 (.Constant 1) [.Constant 2] rfl).1,
    (claimC1 (.Constant 1) [.Constant 2] rfl).2⟩

/-- **C7.** The `+` combinator flattens sums: `Sum [a,b] + Sum [c,d]`
yields `Sum [a,b,c,d]` (no nested Sum-of-Sum); a Sum with child list
`ls` combined with a non-Sum `R` yields `Sum (ls ++ [R])`; and two
non-Sum terms `L`, `R` yield exactly `Sum [L, R]`, in that order.  Both
combinator forms agree on all three shapes. -/
theorem claimC7 :
    (∀ a b c d : Term,
      addRef (.Sum [a, b]) (.Sum [c, d]) = .Sum [a, b, c, d] ∧
      addVal (.Sum [a, b]) (.Sum [c, d]) = .Sum [a, b, c, d]) ∧
    (∀ (ls : List Term) (R : Term), R.isSum = false →
      addRef (.Sum ls) R = .Sum (ls ++ [R]) ∧ addVal (.Sum ls) R = .Sum (ls ++ [R])) ∧
    (∀ L R : Term, L.isSum = false → R.isSum = false →
      addRef L R = .Sum [L, R] ∧ addVal L R = .Sum [L, R]) := by
  refine ⟨fun a b c d => ⟨rfl, rfl⟩, fun ls R hR => ?_, fun L R hL hR => ?_⟩
  · cases R <;> first
      | exact ⟨rfl, rfl⟩
      | simp [Term.isSum] at hR
  · cases L <;> cases R <;> first
      | exact ⟨rfl, rfl⟩
      | simp [Term.isSum] at hL hR

/-- **C7 witness.** The three shapes at concrete constant operands. -/
theorem claimC7_witness :
    addRef (.Sum [.Constant 1, .Constant 2]) (.Sum [.Constant 3, .Constant 4]) =
      .Sum [.Constant 1, .Constant 2, .Constant 3, .Constant 4] ∧
    addRef (.Sum [.Constant 1, .Constant 2]) (.Constant 3) =
      .Sum ([.Constant 1, .Constant 2] ++ [.Constant 3]) ∧
    addRef (.Constant 1) (.Constant 2) = .Sum [.Constant 1, .Constant 2] :=
  ⟨(claimC7.1 (.Constant 1) (.Constant 2) (.Constant 3) (.Constant 4)).1,
    (claimC7.2.1 [.Constant 1, .Constant 2] (.Constant 3) rfl).1,
    (claimC7.2.2 (.Constant 1) (.Constant 2) rfl rfl).1⟩

/-- **C9.** The operand-value form of the `+` combinator delegates to
the operand-reference form, so the two forms return structurally
identical results on every operand pair, and each always produces a new
`Sum` term.  (Both forms are pure functions of their operands in this
embedding, which is exactly the required never-mutates,
copy-on-combine semantics: the operands are immutable values.) -/
theorem claimC9 :
    (∀ L R : Term, addVal L R = addRef L R) ∧
    (∀ L R : Term, (addRef L R).isSum = true ∧ (addVal L R).isSum = true) := by
  refine ⟨fun L R => rfl, fun L R => ?_⟩
  have h : (addRef L R).isSum = true := by
    cases L <;> cases R <;> rfl
  exact ⟨h, h⟩

/-! ### Claims about `Variable` construction -/

/-- **C5.** Constructing a Variable from a string fails when the input
has zero characters (message "Variables must be one character long
(none given).") or more than one character (message "Variables cannot
be longer than one character (<n> found)." with `<n>` the observed
character count), and succeeds for every one-character input, producing
a Variable holding exactly that character. -/
theorem claimC5 (s : String) :
    (s.toList.length = 0 →
      fromStr s = .error "Variables must be one character long (none given).") ∧
    (∀ c : Char, s.toList = [c] → fromStr s = .ok ⟨c⟩) ∧
    (2 ≤ s.toList.length →
      fromStr s = .error
        ("Variables cannot be longer than one character ("
          ++ toString s.toList.length ++ " found).")) := by
  refine ⟨fun h0 => ?_, fun c hc => ?_, fun h2 => ?_⟩
  · have hd : s.data = [] := List.length_eq_zero.mp h0
    simp [fromStr, hd]
  · have hd : s.data = [c] := hc
    simp [fromStr, hd]
  · rcases hEq : s.toList with _ | ⟨c1, _ | ⟨c2, cs⟩⟩
    · rw [hEq] at h2; simp at h2
    · rw [hEq] at h2; simp at h2
    · have hd : s.data = c1 :: c2 :: cs := hEq
      simp [fromStr, hd]

/-- **C5 witness.** The three branches at `""`, `"x"` and `"xy"`. -/
theorem claimC5_witness :
    ("".toList.length = 0 ∧
      fromStr "" = .error "Variables must be one character long (none given).") ∧
    ("x".toList = ['x'] ∧ fromStr "x" = .ok ⟨'x'⟩) ∧
    (2 ≤ "xy".toList.length ∧
      fromStr "xy" = .error
        ("Variables cannot be longer than one character ("
          ++ toString "xy".toList.length ++ " found).")) :=
  ⟨⟨rfl, (claimC5 "").1 rfl⟩, ⟨rfl, (claimC5 "x").2.1 'x' rfl⟩,
    ⟨by decide, (claimC5 "xy").2.2 (by decide)⟩⟩

/-! ### Claims about `Variable` evaluation -/

/-- **C4.** Evaluating a Variable term: via `reduce` (no binding table)
it fails recoverably with the missing-bindings message, which
references the symbol sought; via `evaluate` with a table lacking the
symbol it fails with the unbound-variable message, which names the
missing symbol; and via `evaluate` with a table containing the symbol
it succeeds with the bound value. -/
theorem claimC4 (ops : TrigOps) (sym : Char) (tbl : VariableValues) :
    (reduce ops (.Variable ⟨sym⟩) =
        .err (("No variable values provided (looking for ".push sym) ++ ")") ∧
      sym ∈ (("No variable values provided (looking for ".push sym) ++ ")").toList) ∧
    (tbl sym = none →
      evaluate ops (.Variable ⟨sym⟩) tbl = .err ("No value provided for variable ".push sym) ∧
      sym ∈ ("No value provided for variable ".push sym).toList) ∧
    (∀ x : ℚ, tbl sym = some x → evaluate ops (.Variable ⟨sym⟩) tbl = .ok x) := by
  refine ⟨⟨?_, ?_⟩, fun hnone => ⟨?_, ?_⟩, fun x hsome => ?_⟩
  · simp only [reduce, eval_variable]
  · simp [String.toList, String.data_append, String.data_push]
  · simp only [evaluate, eval_variable, hnone]
  · simp [String.toList, String.data_push]
  · simp only [evaluate, eval_variable, hsome]

/-- **C4 witness.** The three branches at symbol `'x'`, with an empty
table for the unbound case and a table binding `'x'` to `28`. -/
theorem claimC4_witness :
    reduce trivialOps (.Variable ⟨'x'⟩) =
      .err "No variable values provided (looking for x)" ∧
    evaluate trivialOps (.Variable ⟨'x'⟩) (fun _ => none) =
      .err "No value provided for variable x" ∧
    evaluate trivialOps (.Variable ⟨'x'⟩)
      (fun c => if c = 'x' then some 28 else none) = .ok 28 :=
  ⟨((claimC4 trivialOps 'x' (fun _ => none)).1.1).trans (by rfl),
    (((claimC4 trivialOps 'x' (fun _ => none)).2.1 rfl).1).trans (by rfl),
    (claimC4 trivialOps 'x' (fun c => if c = 'x' then some 28 else none)).2.2 28 (by rfl)⟩

/-! ### Claims about evaluating constant sequences -/

section ConstFold

variable (ops : TrigOps) (values : Option VariableValues)

lemma evalSumLoop_map_const (cs : List ℚ) (acc : ℚ) :
    evalSumLoop ops values (cs.map .Constant) acc = .ok (cs.foldl (· + ·) acc) := by
  induction cs generalizing acc with
  | nil => rw [List.map_nil, evalSumLoop_nil, List.foldl_nil]
  | cons c cs ih =>
    rw [List.map_cons, evalSumLoop_cons_ok ops values _ acc (eval_constant ops values c),
      List.foldl_cons, ih]

lemma evalDiffLoop_map_const (cs : List ℚ) (acc : ℚ) :
    evalDiffLoop ops values (cs.map .Constant) acc = .ok (cs.foldl (· - ·) acc) := by
  induction cs generalizing acc with
  | nil => rw [List.map_nil, evalDiffLoop_nil, List.foldl_nil]
  | cons c cs ih =>
    rw [List.map_cons, evalDiffLoop_cons_ok ops values _ acc (eval_constant ops values c),
      List.foldl_cons, ih]

lemma evalProdLoop_map_const (cs : List ℚ) (acc : ℚ) :
    evalProdLoop ops values (cs.map .Constant) acc = .ok (cs.foldl (· * ·) acc) := by
  induction cs generalizing acc with
  | nil => rw [List.map_nil, evalProdLoop_nil, List.foldl_nil]
  | cons c cs ih =>
    rw [List.map_cons, evalProdLoop_cons_ok ops values _ acc (eval_constant ops values c),
      List.foldl_cons, ih]

end ConstFold

/-- **C6.** Over every finite sequence of constants `[c0, ..., cn]`:
`Sum` evaluates to the left-to-right running total started at `0`,
`Product` to the running product started at `1`, `Difference` (on a
non-empty sequence, written `c0 :: cs`) to `c0 - c1 - ... - cn`, and
the empty `Sum` and `Product` evaluate to `0` and `1` respectively. -/
theorem claimC6 (ops : TrigOps) (values : Option VariableValues) (cs : List ℚ) :
    eval ops values (.Sum (cs.map .Constant)) = .ok (cs.foldl (· + ·) 0) ∧
    eval ops values (.Product (cs.map .Constant)) = .ok (cs.foldl (· * ·) 1) ∧
    (∀ c0 : ℚ, eval ops values (.Difference ((c0 :: cs).map .Constant)) =
      .ok (cs.foldl (· - ·) c0)) ∧
    eval ops values (.Sum []) = .ok 0 ∧
    eval ops values (.Product []) = .ok 1 := by
  refine ⟨?_, ?_, fun c0 => ?_, ?_, ?_⟩
  · rw [eval_sum, evalSumLoop_map_const]
  · rw [eval_product, evalProdLoop_map_const]
  · rw [List.map_cons, eval_difference_cons_ok ops values _ (eval_constant ops values c0),
      evalDiffLoop_map_const]
  · rw [eval_sum, evalSumLoop_nil]
  · rw [eval_product, evalProdLoop_nil]

/-! ### Claims about `Quotient` evaluation -/

/-- The uniform per-child division loop in the words of the spec
(§4.2 **Quotient(children)**), for the refinement comparison with the
code's `evalQuotLoop`: given the already-evaluated child values, the
running result is divided by every value of the sequence in order, and
before each division the divisor's absolute value is checked against
the near-zero threshold, failing with the `DivisionByZero` message
without performing that division. -/
def specQuotientLoop : List ℚ → ℚ → EvalResult
  | [], acc => .ok acc
  | v :: rest, acc =>
    if |v| < nearZeroThreshold then .err "Attempted division by zero."
    else specQuotientLoop rest (acc / v)

lemma evalQuotLoop_eq_spec (ops : TrigOps) (values : Option VariableValues)
    {ts : List Term} {vs : List ℚ}
    (h : List.Forall₂ (fun t v => eval ops values t = .ok v) ts vs) :
    ∀ acc : ℚ, evalQuotLoop ops values ts acc = specQuotientLoop vs acc := by
  induction h with
  | nil => intro acc; rw [evalQuotLoop_nil, specQuotientLoop]
  | @cons a b l₁ l₂ h₁ h₂ ih =>
    intro acc
    by_cases hb : |b| < nearZeroThreshold
    · rw [evalQuotLoop_cons_ok_lt ops values l₁ acc h₁ hb, specQuotientLoop, if_pos hb]
    · rw [evalQuotLoop_cons_ok_ge ops values l₁ acc h₁ (not_lt.mp hb),
        specQuotientLoop, if_neg hb, ih]

/-- **C2.** For a `Quotient` whose children all evaluate successfully to
the values `v0 :: vs`, evaluation equals the spec's loop run with the
first child's value as the initial running result and *every* child
value — the first one included — as successive guarded divisors, i.e.
`first / first / second / third / ...`, failing with the
`DivisionByZero` message "Attempted division by zero." the moment a
divisor's absolute value falls below the near-zero threshold, without
performing that division. -/
theorem claimC2 (ops : TrigOps) (values : Option VariableValues)
    (t0 : Term) (ts : List Term) (v0 : ℚ) (vs : List ℚ)
    (h : List.Forall₂ (fun t v => eval ops values t = .ok v) (t0 :: ts) (v0 :: vs)) :
    eval ops values (.Quotient (t0 :: ts)) = specQuotientLoop (v0 :: vs) v0 := by
  have h0 : eval ops values t0 = .ok v0 := (List.forall₂_cons.mp h).1
  rw [eval_quotient_cons_ok ops values ts h0]
  exact evalQuotLoop_eq_spec ops values h v0

/-- `|0| < 0.00000000000000001` over `ℚ`. -/
lemma abs_zero_lt_threshold : |(0 : ℚ)| < nearZeroThreshold := by
  norm_num [nearZeroThreshold]

/-- `0.00000000000000001 ≤ |5|` over `ℚ`. -/
lemma threshold_le_abs_five : nearZeroThreshold ≤ |(5 : ℚ)| := by
  norm_num [nearZeroThreshold]

/-- **C2 witness.** The spec's own example `Quotient [Constant 5,
Constant 0]`: the claim instantiated there, and the resulting failure
is the `DivisionByZero` message. -/
theorem claimC2_witness :
    eval trivialOps none (.Quotient [.Constant 5, .Constant 0]) = specQuotientLoop [5, 0] 5 ∧
    specQuotientLoop [5, 0] 5 = .err "Attempted division by zero." := by
  constructor
  · exact claimC2 trivialOps none (.Constant 5) [.Constant 0] 5 [0]
      (List.Forall₂.cons (eval_constant trivialOps none 5)
        (List.Forall₂.cons (eval_constant trivialOps none 0) List.Forall₂.nil))
  · rw [specQuotientLoop, if_neg (not_lt.mpr threshold_le_abs_five),
      specQuotientLoop, if_pos abs_zero_lt_threshold]

/-- **C10.** The fixed near-zero threshold is exactly `10 ^ (-17)`, and
it is the exact cut for the division loop: a successfully evaluated
divisor `d` with `|d| < 10 ^ (-17)` makes the loop fail with
"Attempted division by zero." without dividing, while any `d` with
`10 ^ (-17) ≤ |d|` is divided by, the loop simply continuing on the
updated running result however large the quotient is. -/
theorem claimC10 (ops : TrigOps) (values : Option VariableValues) (t : Term)
    (rest : List Term) (acc d : ℚ) (ht : eval ops values t = .ok d) :
    nearZeroThreshold = 1 / 10 ^ 17 ∧
    (|d| < nearZeroThreshold →
      evalQuotLoop ops values (t :: rest) acc = .err "Attempted division by zero.") ∧
    (nearZeroThreshold ≤ |d| →
      evalQuotLoop ops values (t :: rest) acc = evalQuotLoop ops values rest (acc / d)) := by
  refine ⟨by norm_num [nearZeroThreshold], fun hlt => ?_, fun hge => ?_⟩
  · exact evalQuotLoop_cons_ok_lt ops values rest acc ht hlt
  · exact evalQuotLoop_cons_ok_ge ops values rest acc ht hge

/-- **C10 witness.** A divisor of `0` trips the guard; a divisor of `5`
is divided by. -/
theorem claimC10_witness :
    nearZeroThreshold = 1 / 10 ^ 17 ∧
    evalQuotLoop trivialOps none [.Constant 0] 5 = .err "Attempted division by zero." ∧
    evalQuotLoop trivialOps none [.Constant 5] 7 = evalQuotLoop trivialOps none [] (7 / 5) :=
  ⟨(claimC10 trivialOps none (.Constant 0) [] 5 0 (eval_constant trivialOps none 0)).1,
    (claimC10 trivialOps none (.Constant 0) [] 5 0
      (eval_constant trivialOps none 0)).2.1 abs_zero_lt_threshold,
    (claimC10 trivialOps none (.Constant 5) [] 7 5
      (eval_constant trivialOps none 5)).2.2 threshold_le_abs_five⟩

/-! ### Claims about failure propagation in composite terms -/

section Propagation

variable (ops : TrigOps) (values : Option VariableValues)

lemma evalSumLoop_prefix_err (pre : List Term) {t : Term} {e : String} (post : List Term)
    (hpre : ∀ t' ∈ pre, ∃ v, eval ops values t' = .ok v)
    (ht : eval ops values t = .err e) :
    ∀ acc : ℚ, evalSumLoop ops values (pre ++ t :: post) acc = .err e := by
  induction pre with
  | nil => intro acc; rw [List.nil_append, evalSumLoop_cons_err ops values post acc ht]
  | cons p pre ih =>
    intro acc
    obtain ⟨v, hv⟩ := hpre p (List.mem_cons_self _ _)
    rw [List.cons_append, evalSumLoop_cons_ok ops values _ acc hv]
    exact ih (fun t' h' => hpre t' (List.mem_cons_of_mem _ h')) _

lemma evalDiffLoop_prefix_err (pre : List Term) {t : Term} {e : String} (post : List Term)
    (hpre : ∀ t' ∈ pre, ∃ v, eval ops values t' = .ok v)
    (ht : eval ops values t = .err e) :
    ∀ acc : ℚ, evalDiffLoop ops values (pre ++ t :: post) acc = .err e := by
  induction pre with
  | nil => intro acc; rw [List.nil_append, evalDiffLoop_cons_err ops values post acc ht]
  | cons p pre ih =>
    intro acc
    obtain ⟨v, hv⟩ := hpre p (List.mem_cons_self _ _)
    rw [List.cons_append, evalDiffLoop_cons_ok ops values _ acc hv]
    exact ih (fun t' h' => hpre t' (List.mem_cons_of_mem _ h')) _

lemma evalProdLoop_prefix_err (pre : List Term) {t : Term} {e : String} (post : List Term)
    (hpre : ∀ t' ∈ pre, ∃ v, eval ops values t' = .ok v)
    (ht : eval ops values t = .err e) :
    ∀ acc : ℚ, evalProdLoop ops values (pre ++ t :: post) acc = .err e := by
  induction pre with
  | nil => intro acc; rw [List.nil_append, evalProdLoop_cons_err ops values post acc ht]
  | cons p pre ih =>
    intro acc
    obtain ⟨v, hv⟩ := hpre p (List.mem_cons_self _ _)
    rw [List.cons_append, evalProdLoop_cons_ok ops values _ acc hv]
    exact ih (fun t' h' => hpre t' (List.mem_cons_of_mem _ h')) _

lemma evalQuotLoop_prefix_err (pre : List Term) {t : Term} {e : String} (post : List Term)
    (hpre : ∀ t' ∈ pre, ∃ v, eval ops values t' = .ok v ∧ nearZeroThreshold ≤ |v|)
    (ht : eval ops values t = .err e) :
    ∀ acc : ℚ, evalQuotLoop ops values (pre ++ t :: post) acc = .err e := by
  induction pre with
  | nil => intro acc; rw [List.nil_append, evalQuotLoop_cons_err ops values post acc ht]
  | cons p pre ih =>
    intro acc
    obtain ⟨v, hv, hvge⟩ := hpre p (List.mem_cons_self _ _)
    rw [List.cons_append, evalQuotLoop_cons_ok_ge ops values _ acc hv hvge]
    exact ih (fun t' h' => hpre t' (List.mem_cons_of_mem _ h')) _

end Propagation

/-- **C8.** In every composite term the children are evaluated in
ascending position and the first failure is returned to the caller
unchanged, with no partial result and no default substitution: if every
child before position `i` evaluates successfully and the child at `i`
fails with message `e`, then `Sum`, `Product` and `Difference` over
those children fail with exactly `e`; so does `Quotient`, provided the
successful earlier children also pass the near-zero divisor guard
(otherwise its guard aborts evaluation even earlier); and each of the
six trigonometric wrappers around a failing child fails with exactly
`e`.  The result does not depend on the children after position `i`. -/
theorem claimC8 (ops : TrigOps) (values : Option VariableValues)
    (pre post : List Term) (t : Term) (e : String)
    (hpre : ∀ t' ∈ pre, ∃ v, eval ops values t' = .ok v)
    (ht : eval ops values t = .err e) :
    eval ops values (.Sum (pre ++ t :: post)) = .err e ∧
    eval ops values (.Product (pre ++ t :: post)) = .err e ∧
    eval ops values (.Difference (pre ++ t :: post)) = .err e ∧
    ((∀ t' ∈ pre, ∃ v, eval ops values t' = .ok v ∧ nearZeroThreshold ≤ |v|) →
      eval ops values (.Quotient (pre ++ t :: post)) = .err e) ∧
    eval ops values (.Sine t) = .err e ∧
    eval ops values (.Cosine t) = .err e ∧
    eval ops values (.Tangent t) = .err e ∧
    eval ops values (.ArcSine t) = .err e ∧
    eval ops values (.ArcCosine t) = .err e ∧
    eval ops values (.ArcTangent t) = .err e := by
  refine ⟨?_, ?_, ?_, fun hq => ?_, ?_, ?_, ?_, ?_, ?_, ?_⟩
  · rw [eval_sum]; exact evalSumLoop_prefix_err ops values pre post hpre ht 0
  · rw [eval_product]; exact evalProdLoop_prefix_err ops values pre post hpre ht 1
  · cases pre with
    | nil => rw [List.nil_append, eval_difference_cons_err ops values post ht]
    | cons p pre' =>
      obtain ⟨v, hv⟩ := hpre p (List.mem_cons_self _ _)
      rw [List.cons_append, eval_difference_cons_ok ops values _ hv]
      exact evalDiffLoop_prefix_err ops values pre' post
        (fun t' h' => hpre t' (List.mem_cons_of_mem _ h')) ht v
  · cases pre with
    | nil => rw [List.nil_append, eval_quotient_cons_err ops values post ht]
    | cons p pre' =>
      obtain ⟨v, hv, _⟩ := hq p (List.mem_cons_self _ _)
      rw [List.cons_append, eval_quotient_cons_ok ops values _ hv]
      exact evalQuotLoop_prefix_err ops values (p :: pre') post hq ht v
  · rw [eval_sine, ht]; rfl
  · rw [eval_cosine, ht]; rfl
  · rw [eval_tangent, ht]; rfl
  · rw [eval_arcsine, ht]; rfl
  · rw [eval_arccosine, ht]; rfl
  · rw [eval_arctangent, ht]; rfl

/-- The concrete failing child used by the C8 witness: an unresolved
variable in `reduce` mode. -/
lemma unboundX_err : eval trivialOps none (.Variable ⟨'x'⟩) =
    .err "No variable values provided (looking for x)" := by
  rw [eval_variable]
  rfl

/-- Every term of the C8 witness prefix evaluates successfully. -/
lemma w8_pre : ∀ t' ∈ [Term.Constant (1 : ℚ)], ∃ v, eval trivialOps none t' = .ok v := by
  intro t' h'
  rw [List.mem_singleton] at h'
  subst h'
  exact ⟨1, eval_constant trivialOps none 1⟩

/-- `0.00000000000000001 ≤ |1|` over `ℚ`. -/
lemma threshold_le_abs_one : nearZeroThreshold ≤ |(1 : ℚ)| := by
  norm_num [nearZeroThreshold]

/-- The C8 witness prefix also passes the near-zero divisor guard. -/
lemma w8_preq : ∀ t' ∈ [Term.Constant (1 : ℚ)],
    ∃ v, eval trivialOps none t' = .ok v ∧ nearZeroThreshold ≤ |v| := by
  intro t' h'
  rw [List.mem_singleton] at h'
  subst h'
  exact ⟨1, eval_constant trivialOps none 1, threshold_le_abs_one⟩

/-- **C8 witness.** Children `[Constant 1, Variable x, Constant 2]`
in `reduce` mode: each composite fails with exactly the unresolved
variable's message, and so does each trig wrapper around the bad
child. -/
theorem claimC8_witness :
    eval trivialOps none
        (.Sum ([.Constant 1] ++ (Term.Variable ⟨'x'⟩) :: [.Constant 2])) =
      .err "No variable values provided (looking for x)" ∧
    eval trivialOps none
        (.Product ([.Constant 1] ++ (Term.Variable ⟨'x'⟩) :: [.Constant 2])) =
      .err "No variable values provided (looking for x)" ∧
    eval trivialOps none
        (.Difference ([.Constant 1] ++ (Term.Variable ⟨'x'⟩) :: [.Constant 2])) =
      .err "No variable values provided (looking for x)" ∧
    eval trivialOps none
        (.Quotient ([.Constant 1] ++ (Term.Variable ⟨'x'⟩) :: [.Constant 2])) =
      .err "No variable values provided (looking for x)" ∧
    eval trivialOps none (.Sine (.Variable ⟨'x'⟩)) =
      .err "No variable values provided (looking for x)" :=
  have h := claimC8 trivialOps none [.Constant 1] [.Constant 2] (.Variable ⟨'x'⟩)
    "No variable values provided (looking for x)" w8_pre unboundX_err
  ⟨h.1, h.2.1, h.2.2.1, h.2.2.2.1 w8_preq, h.2.2.2.2.1⟩

/-! ### Claims about totality of evaluation

The spec's invariant says `Difference` and `Quotient` must never hold
zero children; `wellFormed` marks the terms observing it.  On terms
violating it the evaluator indexes `terms[0]` of an empty vector, which
is the panic outcome `fatal`, not a recoverable `err`. -/

mutual

/-- A term all of whose `Difference` and `Quotient` nodes hold at least
one child (the spec's §3 non-empty-payload invariant). -/
def wellFormed : Term → Bool
  | .Variable _ => true
  | .Constant _ => true
  | .Sum ts => wfList ts
  | .Difference ts => !ts.isEmpty && wfList ts
  | .Product ts => wfList ts
  | .Quotient ts => !ts.isEmpty && wfList ts
  | .Sine t => wellFormed t
  | .Cosine t => wellFormed t
  | .Tangent t => wellFormed t
  | .ArcSine t => wellFormed t
  | .ArcCosine t => wellFormed t
  | .ArcTangent t => wellFormed t

/-- `wellFormed` on every element of a child list. -/
def wfList : List Term → Bool
  | [] => true
  | t :: rest => wellFormed t && wfList rest

end

lemma applyTrig_ne_fatal (f : ℚ → ℚ) {r : EvalResult} (h : r ≠ .fatal) :
    applyTrig f r ≠ .fatal := by
  cases r with
  | ok v => simp [applyTrig]
  | err e => simp [applyTrig]
  | fatal => exact absurd rfl h

/-- Joint no-panic statement for the evaluator and its four loops, by
strong induction on the size of the argument. -/
lemma neFatalAux (ops : TrigOps) (values : Option VariableValues) :
    ∀ n : ℕ,
      (∀ t : Term, sizeOf t ≤ n → wellFormed t = true → eval ops values t ≠ .fatal) ∧
      (∀ ts : List Term, sizeOf ts ≤ n → wfList ts = true → ∀ acc : ℚ,
        evalSumLoop ops values ts acc ≠ .fatal ∧
        evalDiffLoop ops values ts acc ≠ .fatal ∧
        evalProdLoop ops values ts acc ≠ .fatal ∧
        evalQuotLoop ops values ts acc ≠ .fatal) := by
  intro n
  induction n using Nat.strong_induction_on with
  | _ n ih =>
    constructor
    · intro t hsize hwf
      cases t with
      | Constant v => simp [eval_constant]
      | Variable v =>
        rw [eval_variable]
        cases values with
        | none => simp
        | some tbl => cases htbl : tbl v.symbol <;> simp [htbl]
      | Sum ts =>
        rw [wellFormed] at hwf
        rw [eval_sum]
        have hspec := Term.Sum.sizeOf_spec ts
        exact ((ih (sizeOf ts) (by omega)).2 ts le_rfl hwf 0).1
      | Product ts =>
        rw [wellFormed] at hwf
        rw [eval_product]
        have hspec := Term.Product.sizeOf_spec ts
        exact ((ih (sizeOf ts) (by omega)).2 ts le_rfl hwf 1).2.2.1
      | Difference ts =>
        cases ts with
        | nil => rw [wellFormed] at hwf; simp at hwf
        | cons t0 rest =>
          rw [wellFormed] at hwf
          simp only [List.isEmpty_cons, Bool.not_false, Bool.true_and, wfList,
            Bool.and_eq_true] at hwf
          obtain ⟨h1, h2⟩ := hwf
          have hspec := Term.Difference.sizeOf_spec (t0 :: rest)
          have hspec2 := List.cons.sizeOf_spec t0 rest
          have h0ne : eval ops values t0 ≠ .fatal :=
            (ih (sizeOf t0) (by omega)).1 t0 le_rfl h1
          cases h0 : eval ops values t0 with
          | ok v =>
            rw [eval_difference_cons_ok ops values rest h0]
            exact ((ih (sizeOf rest) (by omega)).2 rest le_rfl h2 v).2.1
          | err e => rw [eval_difference_cons_err ops values rest h0]; simp
          | fatal => exact absurd h0 h0ne
      | Quotient ts =>
        cases ts with
        | nil => rw [wellFormed] at hwf; simp at hwf
        | cons t0 rest =>
          rw [wellFormed] at hwf
          simp only [List.isEmpty_cons, Bool.not_false, Bool.true_and] at hwf
          have hspec := Term.Quotient.sizeOf_spec (t0 :: rest)
          have hspec2 := List.cons.sizeOf_spec t0 rest
          have h1 : wellFormed t0 = true := by
            rw [wfList, Bool.and_eq_true] at hwf; exact hwf.1
          have h0ne : eval ops values t0 ≠ .fatal :=
            (ih (sizeOf t0) (by omega)).1 t0 le_rfl h1
          cases h0 : eval ops values t0 with
          | ok v =>
            rw [eval_quotient_cons_ok ops values rest h0]
            exact ((ih (sizeOf (t0 :: rest)) (by omega)).2 (t0 :: rest) le_rfl hwf v).2.2.2
          | err e => rw [eval_quotient_cons_err ops values rest h0]; simp
          | fatal => exact absurd h0 h0ne
      | Sine t' =>
        rw [wellFormed] at hwf
        rw [eval_sine]
        have hspec := Term.Sine.sizeOf_spec t'
        exact applyTrig_ne_fatal _ ((ih (sizeOf t') (by omega)).1 t' le_rfl hwf)
      | Cosine t' =>
        rw [wellFormed] at hwf
        rw [eval_cosine]
        have hspec := Term.Cosine.sizeOf_spec t'
        exact applyTrig_ne_fatal _ ((ih (sizeOf t') (by omega)).1 t' le_rfl hwf)
      | Tangent t' =>
        rw [wellFormed] at hwf
        rw [eval_tangent]
        have hspec := Term.Tangent.sizeOf_spec t'
        exact applyTrig_ne_fatal _ ((ih (sizeOf t') (by omega)).1 t' le_rfl hwf)
      | ArcSine t' =>
        rw [wellFormed] at hwf
        rw [eval_arcsine]
        have hspec := Term.ArcSine.sizeOf_spec t'
        exact applyTrig_ne_fatal _ ((ih (sizeOf t') (by omega)).1 t' le_rfl hwf)
      | ArcCosine t' =>
        rw [wellFormed] at hwf
        rw [eval_arccosine]
        have hspec := Term.ArcCosine.sizeOf_spec t'
        exact applyTrig_ne_fatal _ ((ih (sizeOf t') (by omega)).1 t' le_rfl hwf)
      | ArcTangent t' =>
        rw [wellFormed] at hwf
        rw [eval_arctangent]
        have hspec := Term.ArcTangent.sizeOf_spec t'
        exact applyTrig_ne_fatal _ ((ih (sizeOf t') (by omega)).1 t' le_rfl hwf)
    · intro ts hsize hwf acc
      cases ts with
      | nil =>
        refine ⟨?_, ?_, ?_, ?_⟩ <;>
          simp [evalSumLoop_nil, evalDiffLoop_nil, evalProdLoop_nil, evalQuotLoop_nil]
      | cons t0 rest =>
        rw [wfList, Bool.and_eq_true] at hwf
        obtain ⟨h1, h2⟩ := hwf
        have hspec := List.cons.sizeOf_spec t0 rest
        have h0ne : eval ops values t0 ≠ .fatal :=
          (ih (sizeOf t0) (by omega)).1 t0 le_rfl h1
        have ihrest := (ih (sizeOf rest) (by omega)).2 rest le_rfl h2
        cases h0 : eval ops values t0 with
        | fatal => exact absurd h0 h0ne
        | err e =>
          refine ⟨?_, ?_, ?_, ?_⟩
          · rw [evalSumLoop_cons_err ops values rest acc h0]; simp
          · rw [evalDiffLoop_cons_err ops values rest acc h0]; simp
          · rw [evalProdLoop_cons_err ops values rest acc h0]; simp
          · rw [evalQuotLoop_cons_err ops values rest acc h0]; simp
        | ok v =>
          refine ⟨?_, ?_, ?_, ?_⟩
          · rw [evalSumLoop_cons_ok ops values rest acc h0]; exact (ihrest _).1
          · rw [evalDiffLoop_cons_ok ops values rest acc h0]; exact (ihrest _).2.1
          · rw [evalProdLoop_cons_ok ops values rest acc h0]; exact (ihrest _).2.2.1
          · by_cases hb : |v| < nearZeroThreshold
            · rw [evalQuotLoop_cons_ok_lt ops values rest acc h0 hb]; simp
            · rw [evalQuotLoop_cons_ok_ge ops values rest acc h0 (not_lt.mp hb)]
              exact (ihrest _).2.2.2

/-- **C3, counterexample.** Evaluating a `Difference` or `Quotient`
holding zero children is not rejected with a recoverable failure
result: the evaluator indexes `terms[0]` of the empty child vector, the
process-aborting panic outcome (`fatal`), in `reduce` mode and
`evaluate` mode alike. -/
theorem claimC3_counterexample :
    eval trivialOps none (.Difference []) = .fatal ∧
    eval trivialOps none (.Quotient []) = .fatal ∧
    evaluate trivialOps (.Difference []) (fun _ => none) = .fatal :=
  ⟨eval_difference_nil trivialOps none, eval_quotient_nil trivialOps none,
    eval_difference_nil trivialOps (some fun _ => none)⟩

/-- **C3, amended.** For every term all of whose `Difference` and
`Quotient` nodes hold at least one child, evaluation — `evaluate` under
any binding table, and `reduce` — is total and never process-fatal: it
returns a success value or a recoverable descriptive failure, never the
panic outcome.  (The unamended claim fails: an empty `Difference` or
`Quotient` payload is neither rejected nor structurally impossible, and
evaluating it panics on the `terms[0]` indexing.) -/
theorem claimC3 (ops : TrigOps) (t : Term) (h : wellFormed t = true) :
    (∀ tbl : VariableValues, evaluate ops t tbl ≠ .fatal) ∧ reduce ops t ≠ .fatal :=
  ⟨fun tbl => (neFatalAux ops (some tbl) (sizeOf t)).1 t le_rfl h,
    (neFatalAux ops none (sizeOf t)).1 t le_rfl h⟩

/-- **C3 witness.** The amended claim at the well-formed term
`Difference [Constant 1]`. -/
theorem claimC3_witness :
    wellFormed (.Difference [.Constant 1]) = true ∧
    reduce trivialOps (.Difference [.Constant 1]) ≠ .fatal :=
  have hwf : wellFormed (Term.Difference [Term.Constant 1]) = true := by
    rw [wellFormed]
    rw [wfList]
    rw [wellFormed]
    rw [wfList]
    rfl
  ⟨hwf, (claimC3 trivialOps (.Difference [.Constant 1]) hwf).2⟩

end Cassie
